import Mathlib

/-!
Shallow embedding of the tssh session-orchestration core (trzsz-ssh):
command/tty resolution, background supervisor, cleanup registries,
`-o` option storage and the stdio pump.  Definitions are translated from
the Go sources in `src/tssh/main.go` and the two unnamed source files of
the same package.  External collaborators (the config-file lookup
`getConfig`, the terminal probe `isatty`, the Unicode case-folding table
behind `strings.ToLower`, the operating system) are modelled as
parameters.
-/

/-- ASCII specialization of Go `strings.ToLower`.  The fixed values that
`parseRemoteCommand` and `parseCmdAndTTY` compare after lowercasing
(`none`, `auto`, `no`, `force`, `yes`) are ASCII strings on which Go and
this specialization agree, and none of their letters has a non-ASCII
uppercase preimage, so those comparisons are faithful.  For the
arbitrary keys of the option map, whose folding genuinely depends on the
Unicode tables of the external `strings` package, the fold is instead
abstracted as a parameter `low` (see `SshOption.getWith` below) and the
option-map theorems hold for every choice of `low`. -/
def strToLower (s : String) : String :=
  ⟨s.data.map Char.toLower⟩

/-- Association-list model of the Go map `map[string][]string`:
lookup of the first entry whose key equals `k` (a Go map has unique keys,
which holds for every map built below). -/
def mapGet : List (String × List String) → String → List String
  | [], _ => []
  | p :: rest, k => if p.1 == k then p.2 else mapGet rest k

/-- Go map assignment `m[k] = vs`: replace the entry for `k` when present,
otherwise add a new entry. -/
def mapSet : List (String × List String) → String → List String → List (String × List String)
  | [], k, vs => [(k, vs)]
  | p :: rest, k, vs => if p.1 == k then (k, vs) :: rest else p :: mapSet rest k vs

/-- Embeds `type sshOption struct { options map[string][]string }`. -/
structure SshOption where
  options : List (String × List String)

/-- Embeds `sshOption.get`: first stored value for the lowercased key,
or the empty string. -/
def SshOption.get (o : SshOption) (option : String) : String :=
  match mapGet o.options (strToLower option) with
  | [] => ""
  | v :: _ => v

/-- Embeds `sshOption.getAll`: every stored value for the lowercased key. -/
def SshOption.getAll (o : SshOption) (option : String) : List String :=
  mapGet o.options (strToLower option)

/-- Embeds the storage step of `sshOption.UnmarshalText` (after the textual
key/value split): `o.options[strings.ToLower(key)] = append(o.options[strings.ToLower(key)], value)`. -/
def sshOptionStore (o : SshOption) (key value : String) : SshOption :=
  ⟨mapSet o.options (strToLower key) (mapGet o.options (strToLower key) ++ [value])⟩

/-- The option map obtained from a sequence of `-o key=value` supplies,
in command-line order. -/
def buildOptions (supplies : List (String × String)) : SshOption :=
  supplies.foldl (fun o kv => sshOptionStore o kv.1 kv.2) ⟨[]⟩

/-- Embeds `sshOption.get` with the external `strings.ToLower`
collaborator abstracted as the fold `low`: the source stores and looks
up keys through `strings.ToLower`, whose Unicode tables live outside
this repository, so the theorems about the option map are proved for
every function `low` — in particular the real Unicode fold.
`SshOption.get` above is the instance at the ASCII fold. -/
def SshOption.getWith (low : String → String) (o : SshOption) (option : String) : String :=
  match mapGet o.options (low option) with
  | [] => ""
  | v :: _ => v

/-- Embeds `sshOption.getAll` with the fold abstracted as `low`. -/
def SshOption.getAllWith (low : String → String) (o : SshOption) (option : String) :
    List String :=
  mapGet o.options (low option)

/-- Embeds the storage step of `sshOption.UnmarshalText` with the fold
abstracted as `low`. -/
def sshOptionStoreWith (low : String → String) (o : SshOption) (key value : String) :
    SshOption :=
  ⟨mapSet o.options (low key) (mapGet o.options (low key) ++ [value])⟩

/-- The option map obtained from a sequence of `-o key=value` supplies
under the fold `low`, in command-line order. -/
def buildOptionsWith (low : String → String) (supplies : List (String × String)) : SshOption :=
  supplies.foldl (fun o kv => sshOptionStoreWith low o kv.1 kv.2) ⟨[]⟩

/-- The values a key receives from a supply sequence, in order, matching
keys through the fold `low`. -/
def allSuppliedWith (low : String → String) : List (String × String) → String → List String
  | [], _ => []
  | (key, v) :: rest, k =>
      (if low k = low key then [v] else []) ++ allSuppliedWith low rest k

/-- The first value a key receives from a supply sequence (empty string
when the key was never supplied), matching keys through the fold `low`. -/
def firstSuppliedWith (low : String → String) : List (String × String) → String → String
  | [], _ => ""
  | (key, v) :: rest, k =>
      if low k = low key then v else firstSuppliedWith low rest k

/-- The fields of `sshArgs` that the embedded functions consume. -/
structure SshArgs where
  Destination : String
  Command : String
  Argument : List String
  DisableTTY : Bool
  ForceTTY : Bool
  Background : Bool
  Reconnect : Bool
  Option : SshOption

/-- External collaborators of the core: the config-file lookup
`getConfig(alias, key)` and the `isTerminal` probe. -/
structure TsshEnv where
  getConfig : String → String → String
  isTerminal : Bool

/-- Embeds `parseRemoteCommand` (src/tssh/main.go lines 121-138). -/
def parseRemoteCommand (ctx : TsshEnv) (args : SshArgs) : Except String String :=
  let command := args.Option.get "RemoteCommand"
  if args.Command ≠ "" ∧ command ≠ "" ∧ strToLower command ≠ "none" then
    .error "cannot execute command-line and remote command"
  else if args.Command ≠ "" then
    if args.Argument.length = 0 then .ok args.Command
    else .ok (args.Command ++ " " ++ String.intercalate " " args.Argument)
  else if strToLower command = "none" then .ok ""
  else if command ≠ "" then .ok command
  else .ok (ctx.getConfig args.Destination "RemoteCommand")

/-- Embeds `parseCmdAndTTY` (src/tssh/main.go lines 142-175). -/
def parseCmdAndTTY (ctx : TsshEnv) (args : SshArgs) : Except String (String × Bool) :=
  match parseRemoteCommand ctx args with
  | .error e => .error e
  | .ok cmd =>
    if args.DisableTTY ∧ args.ForceTTY then .error "cannot specify -t with -T"
    else if args.DisableTTY then .ok (cmd, false)
    else if args.ForceTTY then .ok (cmd, true)
    else
      let requestTTY := ctx.getConfig args.Destination "RequestTTY"
      match strToLower requestTTY with
      | "" | "auto" => .ok (cmd, ctx.isTerminal && (cmd == ""))
      | "no" => .ok (cmd, false)
      | "force" => .ok (cmd, true)
      | "yes" => .ok (cmd, ctx.isTerminal)
      | _ => .error ("unknown RequestTTY option: " ++ requestTTY)

/-- Embeds the destination-scanning loop of `background`
(src/tssh/main.go lines 62-69): walk the argument vector recording the
index of the last occurrence of the original destination (`-1` when
absent, as in the Go source) and the number of occurrences. -/
def scanDest (origDest : String) : List String → Int → Int × Nat → Int × Nat
  | [], _, p => p
  | a :: rest, i, p =>
      scanDest origDest rest (i + 1) (if a = origDest then (i, p.2 + 1) else p)

/-- Embeds the argument-vector rebuild of `background`
(src/tssh/main.go lines 58-74): append the resolved destination when no
destination argument was given, substitute it at the unique position of
the original destination when they differ, otherwise keep the vector.
The source error text is abridged here because it contains a character
the development avoids; the claims only require that the result is an
error. -/
def backgroundNewArgs (osArgs : List String) (origDest dest : String) :
    Except String (List String) :=
  if origDest = "" then .ok (osArgs ++ [dest])
  else if origDest ≠ dest then
    let p := scanDest origDest osArgs 0 (-1, 0)
    if p.2 ≠ 1 then
      .error ("unable to replace the destination: " ++ origDest ++ " => " ++ dest)
    else .ok (osArgs.set p.1.toNat dest)
  else .ok osArgs

/-- One second, in the nanosecond units of Go `time.Duration`. -/
def kSecond : Nat := 1000000000

/-- Embeds one turn of the monitor loop of `background`
(src/tssh/main.go lines 92-101): given the cumulative sleep delay and the
lifetime of the child that just exited (both in nanoseconds), return the
new delay and the delay actually slept before the next restart (`none`
when the loop restarts without sleeping). -/
def monitorStep (sleepTime lifetime : Nat) : Nat × Option Nat :=
  if lifetime < 10 * kSecond then
    let s := if sleepTime < 10 * kSecond then sleepTime + kSecond else sleepTime
    (s, some s)
  else (0, none)

/-- The sleeps performed by the monitor loop across a sequence of child
lifetimes, starting from a given cumulative delay. -/
def monitorDelays (sleepTime : Nat) : List Nat → List (Option Nat)
  | [] => []
  | lt :: rest =>
      let p := monitorStep sleepTime lt
      p.2 :: monitorDelays p.1 rest

/-- Embeds the countdown loop shared by `cleanupOnExit` and `cleanupForGC`
(src/tssh/main.go lines 107-119): `for i := len(fs) - 1; i >= 0; i-- { fs[i]() }`.
Callbacks are modelled as state transformers; `i + 1` is the loop counter
whose current index is `i`. -/
def runFrom {σ : Type} (fs : List (σ → σ)) : Nat → σ → σ
  | 0, s => s
  | i + 1, s => runFrom fs i (fs.getD i id s)

/-- Embeds `cleanupOnExit`, draining the `onExitFuncs` registry. -/
def cleanupOnExit {σ : Type} (onExitFuncs : List (σ → σ)) (s : σ) : σ :=
  runFrom onExitFuncs onExitFuncs.length s

/-- Embeds `cleanupForGC`, draining the `cleanupAfterLogined` registry. -/
def cleanupForGC {σ : Type} (cleanupAfterLogined : List (σ → σ)) (s : σ) : σ :=
  runFrom cleanupAfterLogined cleanupAfterLogined.length s

/-- The two environment markers consulted and appended by `background`:
the values of `TRZSZ-SSH-BACKGROUND` and `TRZSZ-SSH-BG-MONITOR`. -/
structure BgEnv where
  background : String
  monitor : String
deriving DecidableEq

/-- Embeds the role/marker logic of `background`
(src/tssh/main.go lines 42-56).  `none` means the process saw
`TRZSZ-SSH-BACKGROUND=TRUE` and returns immediately as the background
instance, spawning nothing; otherwise the result carries the child
environment (the inherited environment with exactly one marker appended,
modelled as a field update since a later duplicate entry overrides the
inherited one) and the `monitor` flag of the spawning process. -/
def backgroundEnvStep (reconnect : Bool) (env : BgEnv) : Option (BgEnv × Bool) :=
  if env.background = "TRUE" then none
  else
    let monitor := env.monitor == "TRUE"
    if reconnect && !monitor then some ({ env with monitor := "TRUE" }, monitor)
    else some ({ env with background := "TRUE" }, monitor)

/-- Embeds `bytes.ReplaceAll(buf, []byte("\r\n"), []byte("\n"))`:
left-to-right replacement of every CR LF pair (13 10) by LF (10). -/
def replaceCRLF : List Nat → List Nat
  | 13 :: 10 :: rest => 10 :: replaceCRLF rest
  | b :: rest => b :: replaceCRLF rest
  | [] => []

/-- Embeds `bytes.ReplaceAll(buf, []byte("\n"), []byte("\r\n"))`:
left-to-right replacement of every LF (10) by CR LF (13 10). -/
def replaceLF : List Nat → List Nat
  | 10 :: rest => 13 :: 10 :: replaceLF rest
  | b :: rest => b :: replaceLF rest
  | [] => []

/-- The per-chunk transformation of the pump (src/unnamed/part_001
lines 62-68): on Windows without a tty, rewrite CR LF to LF on the
input direction and LF to CR LF on the output direction; otherwise the
chunk passes through unchanged. -/
def forwardChunk (win tty input : Bool) (buf : List Nat) : List Nat :=
  if win && !tty then
    if input then replaceCRLF buf else replaceLF buf
  else buf

/-- Outcome of one `reader.Read` call: more data may follow, end of
input, or a read failure. -/
inductive ReadErr
  | ok
  | eof
  | fail
deriving DecidableEq

/-- Embeds one iteration of the pump loop of `forwardIO` inside
`wrapStdIO` (src/unnamed/part_001 lines 58-85) under the assumption that
sink writes succeed: given the bytes returned by the read and its error
status, return the bytes written to the sink in this iteration and
whether the loop keeps reading.  On end of input with Windows, a tty and
the input direction, a single Ctrl-Z byte (26 = 0x1A) is written and the
loop continues; otherwise end of input breaks the loop and a read
failure aborts it.  Either way of ending the loop closes the sink via
the deferred close. -/
def forwardStep (win tty input : Bool) (n : List Nat) (err : ReadErr) :
    List Nat × Bool :=
  let out := if 0 < n.length then forwardChunk win tty input n else []
  match err with
  | .eof => if win && tty && input then (out ++ [26], true) else (out, false)
  | .ok => (out, true)
  | .fail => (out, false)

/-- The pump loop over a finite schedule of read results: returns all
bytes written to the sink and whether the loop ended (and hence the sink
was closed by the deferred close).  An exhausted schedule while the loop
still wants to read leaves the sink open. -/
def forwardStdio (win tty input : Bool) : List (List Nat × ReadErr) → List Nat × Bool
  | [] => ([], false)
  | (n, err) :: rest =>
      let step := forwardStep win tty input n err
      if step.2 then
        let r := forwardStdio win tty input rest
        (step.1 ++ r.1, r.2)
      else (step.1, true)

/-- Looking up after a map assignment: the assigned key sees the assigned
values, every other key is untouched. -/
theorem mapGet_mapSet (m : List (String × List String)) (k k' : String) (vs : List String) :
    mapGet (mapSet m k vs) k' = if k' = k then vs else mapGet m k' := by
  induction m with
  | nil =>
    by_cases h : k' = k
    · simp [mapSet, mapGet, h]
    · simp [mapSet, mapGet, h, Ne.symm h]
  | cons p rest ih =>
    by_cases hp : p.1 == k
    · have hpk : p.1 = k := eq_of_beq hp
      by_cases h : k' = k
      · simp [mapSet, mapGet, hp, hpk, h]
      · have h2 : ¬(k = k') := fun he => h he.symm
        have h3 : ¬(p.1 = k') := fun he => h2 (hpk ▸ he)
        simp [mapSet, mapGet, hp, h, h2, h3]
    · by_cases h2 : p.1 == k'
      · have hpk : p.1 = k' := eq_of_beq h2
        have hne : ¬(k' = k) := fun he => hp (by simp [hpk, he])
        simp [mapSet, mapGet, hp, h2, hne]
      · simp [mapSet, mapGet, hp, h2, ih]

/-- Storing one `-o` supply appends its value to the matching key (keys
compared through the fold) and leaves every other key unchanged. -/
theorem getAllWith_store (low : String → String) (o : SshOption) (key value k : String) :
    (sshOptionStoreWith low o key value).getAllWith low k =
      o.getAllWith low k ++ (if low k = low key then [value] else []) := by
  unfold sshOptionStoreWith SshOption.getAllWith
  rw [mapGet_mapSet]
  by_cases h : low k = low key <;> simp [h]

/-- Folding the supplies into an option map accumulates, per key, exactly
the supplied values in supply order. -/
theorem buildOptionsWith_getAll_aux (low : String → String)
    (supplies : List (String × String)) :
    ∀ (o : SshOption) (k : String),
      (supplies.foldl (fun o kv => sshOptionStoreWith low o kv.1 kv.2) o).getAllWith low k =
        o.getAllWith low k ++ allSuppliedWith low supplies k := by
  induction supplies with
  | nil => intro o k; simp [allSuppliedWith]
  | cons kv rest ih =>
    intro o k
    obtain ⟨key, v⟩ := kv
    simp only [List.foldl_cons, allSuppliedWith]
    rw [ih, getAllWith_store, List.append_assoc]

/-- `sshOption.get` returns the head of `sshOption.getAll`, defaulting to
the empty string. -/
theorem getWith_eq_headD (low : String → String) (o : SshOption) (k : String) :
    o.getWith low k = (o.getAllWith low k).headD "" := by
  unfold SshOption.getWith SshOption.getAllWith
  cases h : mapGet o.options (low k) <;> simp [h]

/-- The first supplied value is the head of all supplied values. -/
theorem firstSuppliedWith_eq_headD (low : String → String)
    (supplies : List (String × String)) :
    ∀ k : String,
      firstSuppliedWith low supplies k = (allSuppliedWith low supplies k).headD "" := by
  induction supplies with
  | nil => intro k; rfl
  | cons kv rest ih =>
    intro k
    obtain ⟨key, v⟩ := kv
    by_cases h : low k = low key <;>
      simp [firstSuppliedWith, allSuppliedWith, h, ih]

/-- A key matching no supply receives the empty string. -/
theorem firstSuppliedWith_empty (low : String → String)
    (supplies : List (String × String)) :
    ∀ k : String, (∀ kv ∈ supplies, low kv.1 ≠ low k) →
      firstSuppliedWith low supplies k = "" := by
  induction supplies with
  | nil => intro k _; rfl
  | cons kv rest ih =>
    intro k hn
    obtain ⟨key, v⟩ := kv
    have h1 : low key ≠ low k := hn (key, v) (List.mem_cons_self _ _)
    have h2 : ∀ kv ∈ rest, low kv.1 ≠ low k :=
      fun kv hk => hn kv (List.mem_cons_of_mem _ hk)
    simp only [firstSuppliedWith]
    rw [if_neg fun he => h1 he.symm]
    exact ih k h2

/-- The concrete lookup used by `parseRemoteCommand` is the parametric
embedding at the ASCII fold. -/
theorem get_eq_getWith (o : SshOption) (k : String) :
    o.get k = o.getWith strToLower k := rfl

/-- C10 (confirmed): for every fold the external `strings.ToLower` may
denote — in particular the real Unicode fold of the `strings` package —
lookup through `sshOption.get` is case-insensitive: keys with the same
fold resolve to the same value; when fold-equal keys are supplied more
than once through the `-o` option set, the first supplied value is
returned; and a key matching no supply resolves to the empty string. -/
theorem sshOption_lookup_spec (low : String → String) :
    (∀ (o : SshOption) (k1 k2 : String),
      low k1 = low k2 → o.getWith low k1 = o.getWith low k2) ∧
    (∀ (supplies : List (String × String)) (k : String),
      (buildOptionsWith low supplies).getWith low k = firstSuppliedWith low supplies k) ∧
    (∀ (supplies : List (String × String)) (k : String),
      (∀ kv ∈ supplies, low kv.1 ≠ low k) →
      (buildOptionsWith low supplies).getWith low k = "") := by
  have hmain : ∀ (supplies : List (String × String)) (k : String),
      (buildOptionsWith low supplies).getWith low k = firstSuppliedWith low supplies k := by
    intro supplies k
    rw [getWith_eq_headD, firstSuppliedWith_eq_headD]
    unfold buildOptionsWith
    rw [buildOptionsWith_getAll_aux]
    have hnil : SshOption.getAllWith low ⟨[]⟩ k = [] := rfl
    rw [hnil, List.nil_append]
  refine ⟨?_, hmain, ?_⟩
  · intro o k1 k2 h
    unfold SshOption.getWith
    rw [h]
  · intro supplies k hn
    rw [hmain]
    exact firstSuppliedWith_empty low supplies k hn

/-- C10 witness: the lookup theorem at concrete folds and supplies — the
executable ASCII fold with duplicate keys in different capitalizations,
a case-folded query and an absent key, plus a collapsing fold under
which any two keys count as the same key. -/
theorem sshOption_lookup_spec_witness :
    (buildOptionsWith strToLower [("User", "alice"), ("user", "bob")]).getWith strToLower
      "USER" = "alice" ∧
    (buildOptionsWith strToLower [("User", "alice")]).getWith strToLower "HostName" = "" ∧
    (buildOptionsWith strToLower [("User", "alice")]).getWith strToLower "user" =
      (buildOptionsWith strToLower [("User", "alice")]).getWith strToLower "USER" ∧
    (buildOptionsWith (fun _ => "k") [("Ta", "x"), ("Tb", "y")]).getWith (fun _ => "k")
      "anything" = "x" := by
  refine ⟨?_, ?_, ?_, ?_⟩
  · rw [(sshOption_lookup_spec strToLower).2.1]; rfl
  · exact (sshOption_lookup_spec strToLower).2.2 [("User", "alice")] "HostName" (by decide)
  · exact (sshOption_lookup_spec strToLower).1
      (buildOptionsWith strToLower [("User", "alice")]) "user" "USER" rfl
  · rw [(sshOption_lookup_spec (fun _ => "k")).2.1]; rfl

/-- C4 counterexample: with the inline command `ls` and the `-o`-supplied
`RemoteCommand` value `None` — a value other than the literal `"none"` —
`parseRemoteCommand` succeeds with the inline command instead of failing,
because the source compares the lowercased value against `"none"`. -/
theorem parseRemoteCommand_conflict_cex :
    (buildOptions [("RemoteCommand", "None")]).get "RemoteCommand" = "None" ∧
    ("None" : String) ≠ "none" ∧
    parseRemoteCommand ⟨fun _ _ => "", false⟩
      ⟨"host", "ls", [], false, false, false, false, buildOptions [("RemoteCommand", "None")]⟩ =
      .ok "ls" :=
  ⟨rfl, by decide, rfl⟩

/-- C4 (amended): for every argument set in which an inline command is
given and the `-o` option set supplies a `RemoteCommand` value that is
non-empty and whose lowercase form is not `"none"`, command resolution
fails with an error and no command string is returned. -/
theorem parseRemoteCommand_conflict (ctx : TsshEnv) (args : SshArgs)
    (h1 : args.Command ≠ "") (h2 : args.Option.get "RemoteCommand" ≠ "")
    (h3 : strToLower (args.Option.get "RemoteCommand") ≠ "none") :
    parseRemoteCommand ctx args = .error "cannot execute command-line and remote command" := by
  unfold parseRemoteCommand
  rw [if_pos ⟨h1, h2, h3⟩]

/-- C4 witness: the amended conflict theorem at a concrete argument set. -/
theorem parseRemoteCommand_conflict_witness :
    parseRemoteCommand ⟨fun _ _ => "", false⟩
      ⟨"host", "ls", [], false, false, false, false, buildOptions [("RemoteCommand", "uptime")]⟩ =
      .error "cannot execute command-line and remote command" :=
  parseRemoteCommand_conflict _ _ (by decide) (by decide) (by decide)

/-- C5 counterexample: with no inline command and `RemoteCommand none`
present only in the configuration file (the `getConfig` collaborator),
`parseRemoteCommand` returns the string `"none"` verbatim as the
resolved command, not the empty string: the `"none"` special case in the
source only inspects the `-o`-supplied value. -/
theorem parseRemoteCommand_none_cex :
    parseRemoteCommand ⟨fun _ k => if k = "RemoteCommand" then "none" else "", false⟩
      ⟨"host", "", [], false, false, false, false, ⟨[]⟩⟩ = .ok "none" ∧
    ("none" : String) ≠ "" :=
  ⟨rfl, by decide⟩

/-- C5 (amended): for every argument set with no inline command where the
`-o` option set supplies a `RemoteCommand` value whose lowercase form is
`"none"`, `parseRemoteCommand` returns the empty string and no error; a
`"none"` present only in the configuration file is instead returned
verbatim as the resolved command. -/
theorem parseRemoteCommand_none (ctx : TsshEnv) (args : SshArgs)
    (h1 : args.Command = "")
    (h2 : strToLower (args.Option.get "RemoteCommand") = "none") :
    parseRemoteCommand ctx args = .ok "" := by
  unfold parseRemoteCommand
  simp [h1, h2]

/-- C5 witness: the amended theorem at a concrete argument set. -/
theorem parseRemoteCommand_none_witness :
    parseRemoteCommand ⟨fun _ _ => "", false⟩
      ⟨"host", "", [], false, false, false, false, buildOptions [("RemoteCommand", "None")]⟩ =
      .ok "" :=
  parseRemoteCommand_none _ _ rfl (by decide)

/-- C2 (confirmed): one turn of the monitor loop, started at a reachable
cumulative delay of `m` whole seconds (`m ≤ 10`): a child lifetime under
10 seconds bumps the delay by one second capped at 10 and sleeps exactly
that long; a lifetime of 10 seconds or more resets the delay to zero and
does not sleep; three successive 3-second exits from a fresh monitor
sleep 1, 2 and 3 seconds. -/
theorem monitor_backoff (m lt : Nat) (hm : m ≤ 10) :
    (lt < 10 * kSecond →
      monitorStep (m * kSecond) lt =
        (min (m + 1) 10 * kSecond, some (min (m + 1) 10 * kSecond))) ∧
    (10 * kSecond ≤ lt → monitorStep (m * kSecond) lt = (0, none)) ∧
    monitorDelays 0 [3 * kSecond, 3 * kSecond, 3 * kSecond] =
      [some (1 * kSecond), some (2 * kSecond), some (3 * kSecond)] := by
  refine ⟨?_, ?_, by decide⟩
  · intro hlt
    simp only [monitorStep, kSecond] at hlt ⊢
    rw [if_pos hlt]
    split_ifs with h2 <;> simp only [Prod.mk.injEq, Option.some.injEq] <;>
      refine ⟨?_, ?_⟩ <;> omega
  · intro hge
    simp only [monitorStep, kSecond] at hge ⊢
    rw [if_neg (by omega)]

/-- C2 witness: the backoff theorem at concrete delays and lifetimes. -/
theorem monitor_backoff_witness :
    monitorStep (0 * kSecond) (3 * kSecond) =
      (min (0 + 1) 10 * kSecond, some (min (0 + 1) 10 * kSecond)) ∧
    monitorStep (10 * kSecond) (12 * kSecond) = (0, none) :=
  ⟨(monitor_backoff 0 (3 * kSecond) (by decide)).1 (by decide),
   (monitor_backoff 10 (12 * kSecond) (by decide)).2.1 (by decide)⟩

/-- Scanning a list free of the destination leaves the accumulator. -/
theorem scanDest_not_mem (d : String) :
    ∀ (l : List String), d ∉ l → ∀ (i : Int) (p : Int × Nat), scanDest d l i p = p := by
  intro l
  induction l with
  | nil => intro _ i p; rfl
  | cons a rest ih =>
    intro hmem i p
    have ha : ¬(a = d) := fun he => hmem (he ▸ List.mem_cons_self a rest)
    have hr : d ∉ rest := fun hm => hmem (List.mem_cons_of_mem a hm)
    simp only [scanDest, if_neg ha]
    exact ih hr (i + 1) p

/-- Scanning an appended list scans the two halves in sequence, the
second starting at the shifted index. -/
theorem scanDest_append (d : String) :
    ∀ (l₁ l₂ : List String) (i : Int) (p : Int × Nat),
      scanDest d (l₁ ++ l₂) i p = scanDest d l₂ (i + l₁.length) (scanDest d l₁ i p) := by
  intro l₁
  induction l₁ with
  | nil => intro l₂ i p; simp [scanDest]
  | cons a rest ih =>
    intro l₂ i p
    simp only [List.cons_append, scanDest, List.length_cons, List.append_eq]
    rw [ih]
    congr 1
    push_cast
    ring

/-- The count component of the scan counts the destination occurrences. -/
theorem scanDest_count (d : String) :
    ∀ (l : List String) (i : Int) (p : Int × Nat),
      (scanDest d l i p).2 = p.2 + l.count d := by
  intro l
  induction l with
  | nil => intro i p; simp [scanDest]
  | cons a rest ih =>
    intro i p
    simp only [scanDest]
    rw [ih]
    by_cases h : a = d
    · simp [h, List.count_cons]
      omega
    · have h2 : ¬(d = a) := fun he => h he.symm
      simp [h, h2, List.count_cons]

/-- Setting the element right after a prefix replaces the head of the
remainder. -/
theorem set_append_length {α : Type} :
    ∀ (l₁ : List α) (d : α) (l₂ : List α) (v : α),
      (l₁ ++ d :: l₂).set l₁.length v = l₁ ++ v :: l₂ := by
  intro l₁
  induction l₁ with
  | nil => intro d l₂ v; rfl
  | cons a rest ih => intro d l₂ v; simp [List.set, ih]

/-- C3 (confirmed): relaunching with a resolved destination different
from the (present) original destination: when the original destination
occurs exactly once in the argument vector — witnessed by the split
`l₁ ++ origDest :: l₂` with no occurrence in either side — exactly that
occurrence is replaced and every other argument is kept; when it occurs
zero or two-or-more times, the rebuild returns an explicit error. -/
theorem background_replace_dest (osArgs l₁ l₂ : List String) (origDest dest : String)
    (hne : origDest ≠ "") (hdiff : origDest ≠ dest) :
    (osArgs = l₁ ++ origDest :: l₂ → origDest ∉ l₁ → origDest ∉ l₂ →
      backgroundNewArgs osArgs origDest dest = .ok (l₁ ++ dest :: l₂)) ∧
    (osArgs.count origDest ≠ 1 →
      ∃ msg, backgroundNewArgs osArgs origDest dest = .error msg) := by
  constructor
  · intro hdec h1 h2
    subst hdec
    have hscan : scanDest origDest (l₁ ++ origDest :: l₂) 0 (-1, 0) = ((l₁.length : Int), 1) := by
      rw [scanDest_append, scanDest_not_mem _ _ h1]
      simp only [scanDest, if_pos rfl]
      rw [scanDest_not_mem _ _ h2]
      simp
    simp only [backgroundNewArgs]
    rw [if_neg hne, if_pos hdiff, hscan]
    simp [set_append_length]
  · intro hcount
    refine ⟨"unable to replace the destination: " ++ origDest ++ " => " ++ dest, ?_⟩
    simp only [backgroundNewArgs]
    rw [if_neg hne, if_pos hdiff,
      if_pos (show (scanDest origDest osArgs 0 (-1, 0)).2 ≠ 1 by
        rw [scanDest_count]; simpa using hcount)]

/-- C3 witness: the substitution theorem at a concrete argument vector
with one occurrence, and the error branch at one with two occurrences. -/
theorem background_replace_dest_witness :
    backgroundNewArgs ["tssh", "host"] "host" "host2" = .ok ["tssh", "host2"] ∧
    (∃ msg, backgroundNewArgs ["tssh", "host", "host"] "host" "host2" = .error msg) :=
  ⟨(background_replace_dest ["tssh", "host"] ["tssh"] [] "host" "host2"
      (by decide) (by decide)).1 rfl (by decide) (by decide),
   (background_replace_dest ["tssh", "host", "host"] [] [] "host" "host2"
      (by decide) (by decide)).2 (by decide)⟩

/-- C6 counterexample: in Windows no-pty input mode, a CR LF pair split
across two reads is not rewritten: the pump writes 97 13 10 98 for the
reads `[97 13]` and `[10 98]`, while applying the rewrite to the whole
input sequence would give 97 10 98. -/
theorem forwardStdio_split_crlf_cex :
    forwardStdio true false true
        [([97, 13], ReadErr.ok), ([10, 98], ReadErr.ok), ([], ReadErr.eof)] =
      ([97, 13, 10, 98], true) ∧
    replaceCRLF ([97, 13] ++ [10, 98]) = [97, 10, 98] ∧
    ([97, 13, 10, 98] : List Nat) ≠ [97, 10, 98] :=
  ⟨rfl, rfl, by decide⟩

/-- C6 (amended): the pump applies the platform newline normalization to
each read chunk independently: over any chunk schedule ending in end of
input (in every mode where end of input ends the loop), the bytes
written to the sink before it closes are the concatenation of the
per-chunk transforms — so a byte sequence delivered in a single read is
normalized exactly as the claim states, but a CR LF pair split across
two reads is not rewritten — and in every mode other than Windows
without a tty no transformation at all is applied. -/
theorem forwardStdio_per_chunk (win tty input : Bool) (chunks : List (List Nat))
    (h : ¬(win = true ∧ tty = true ∧ input = true)) :
    forwardStdio win tty input (chunks.map (fun c => (c, ReadErr.ok)) ++ [([], ReadErr.eof)]) =
      ((chunks.map (forwardChunk win tty input)).flatten, true) ∧
    (win = false ∨ tty = true → ∀ c : List Nat, forwardChunk win tty input c = c) := by
  constructor
  · induction chunks with
    | nil =>
      have hc : (win && tty && input) = false := by
        cases win <;> cases tty <;> cases input <;> simp_all
      simp [forwardStdio, forwardStep, hc]
    | cons c cs ih =>
      have hfc : forwardChunk win tty input [] = [] := by
        cases win <;> cases tty <;> cases input <;> rfl
      simp only [List.map_cons, List.cons_append, forwardStdio, forwardStep]
      cases c with
      | nil => simp [hfc, ih]
      | cons b bs => simp [ih]
  · intro hmode c
    have hw : (win && !tty) = false := by
      rcases hmode with h1 | h1 <;> simp [h1]
    unfold forwardChunk
    rw [hw]
    simp

/-- C6 witness: the per-chunk theorem at a single-read CR LF chunk in
Windows no-pty input mode, and at a non-Windows mode chunk. -/
theorem forwardStdio_per_chunk_witness :
    forwardStdio true false true [([13, 10, 97], ReadErr.ok), ([], ReadErr.eof)] =
      ([10, 97], true) ∧
    forwardChunk false false true [13, 10] = [13, 10] := by
  constructor
  · exact (forwardStdio_per_chunk true false true [[13, 10, 97]] (by decide)).1
  · exact (forwardStdio_per_chunk false false true [] (by decide)).2 (Or.inl rfl) [13, 10]

/-- C7 (confirmed): on Windows with a tty on the input direction, end of
input never ends the pump loop (and hence never triggers the deferred
sink close): the step writes the pending bytes followed by exactly one
Ctrl-Z byte (26) and keeps reading, and a whole schedule free of read
failures never closes the sink. -/
theorem forwardStep_eof_ctrlZ :
    (∀ data : List Nat, forwardStep true true true data ReadErr.eof = (data ++ [26], true)) ∧
    (∀ events : List (List Nat × ReadErr),
      (∀ p ∈ events, p.2 ≠ ReadErr.fail) →
      (forwardStdio true true true events).2 = false) := by
  constructor
  · intro data
    cases data <;> simp [forwardStep, forwardChunk]
  · intro events
    induction events with
    | nil => intro _; simp [forwardStdio]
    | cons e rest ih =>
      intro h
      obtain ⟨n, err⟩ := e
      have h1 : err ≠ ReadErr.fail := h (n, err) (List.mem_cons_self _ _)
      have h2 : ∀ p ∈ rest, p.2 ≠ ReadErr.fail := fun p hp => h p (List.mem_cons_of_mem _ hp)
      cases err with
      | ok => simpa [forwardStdio, forwardStep] using ih h2
      | eof => simpa [forwardStdio, forwardStep] using ih h2
      | fail => exact absurd rfl h1

/-- The countdown loop applies the first `n` callbacks in reverse order. -/
theorem runFrom_take {σ : Type} (fs : List (σ → σ)) :
    ∀ n : Nat, n ≤ fs.length → ∀ s : σ,
      runFrom fs n s = ((fs.take n).reverse).foldl (fun t f => f t) s := by
  intro n
  induction n with
  | zero => intro _ s; simp [runFrom]
  | succ i ih =>
    intro h s
    have hi : i < fs.length := h
    have hd : fs.getD i id = fs[i] := by
      simp [List.getD, List.getElem?_eq_getElem hi]
    have ht : fs.take (i + 1) = fs.take i ++ [fs[i]] := by
      rw [List.take_succ, List.getElem?_eq_getElem hi]
      rfl
    rw [show runFrom fs (i + 1) s = runFrom fs i (fs.getD i id s) from rfl,
      hd, ih (Nat.le_of_lt hi), ht, List.reverse_append]
    rfl

/-- C8 (confirmed): draining either cleanup registry applies the
registered callbacks in strictly reverse registration order — the drain
equals a fold over the reversed registration list — and registering the
taggers A, B, C in that order produces the invocation trace C, B, A. -/
theorem cleanup_lifo_order {σ : Type} (fs : List (σ → σ)) (s : σ) :
    cleanupOnExit fs s = fs.reverse.foldl (fun t f => f t) s ∧
    cleanupForGC fs s = fs.reverse.foldl (fun t f => f t) s ∧
    cleanupOnExit [fun l => l ++ ["A"], fun l => l ++ ["B"], fun l => l ++ ["C"]]
      ([] : List String) = ["C", "B", "A"] := by
  have h := runFrom_take fs fs.length le_rfl s
  rw [List.take_length] at h
  exact ⟨h, h, rfl⟩

/-- Unfolded form of `backgroundEnvStep`, for case splitting. -/
theorem backgroundEnvStep_eq (reconnect : Bool) (env : BgEnv) :
    backgroundEnvStep reconnect env =
      if env.background = "TRUE" then none
      else if reconnect && !(env.monitor == "TRUE") then
        some ({ env with monitor := "TRUE" }, env.monitor == "TRUE")
      else some ({ env with background := "TRUE" }, env.monitor == "TRUE") := rfl

/-- C9 counterexample: in a reconnecting chain the launcher marks its
child as the monitor; the monitor in turn spawns the working child with
the background marker appended while the monitor marker it inherited is
still present, so that spawned child environment carries both markers
set to TRUE at once. -/
theorem background_markers_cex :
    backgroundEnvStep true ⟨"", ""⟩ = some (⟨"", "TRUE"⟩, false) ∧
    backgroundEnvStep true ⟨"", "TRUE"⟩ = some (⟨"TRUE", "TRUE"⟩, true) ∧
    (BgEnv.mk "TRUE" "TRUE").background = "TRUE" ∧
    (BgEnv.mk "TRUE" "TRUE").monitor = "TRUE" :=
  ⟨rfl, rfl, rfl, rfl⟩

/-- C9 (amended): each re-execution appends exactly one of the two
markers — the monitor marker when reconnect is requested and the
spawning process is not already the monitor, otherwise the background
marker — leaving the other marker at its inherited value; a process
whose own environment carries neither marker therefore never spawns a
child with both markers TRUE, but the monitor's child does carry both
(monitor inherited, background appended), and a process that sees the
background marker spawns nothing, so exactly one re-execution in the
chain acts as the background child at any time. -/
theorem background_markers (reconnect : Bool) (env : BgEnv) :
    (backgroundEnvStep reconnect env = none ↔ env.background = "TRUE") ∧
    (∀ cenv mon, backgroundEnvStep reconnect env = some (cenv, mon) →
      (cenv.monitor = "TRUE" ∧ cenv.background = env.background) ∨
      (cenv.background = "TRUE" ∧ cenv.monitor = env.monitor)) ∧
    (∀ cenv mon, backgroundEnvStep reconnect env = some (cenv, mon) →
      env.background ≠ "TRUE" → env.monitor ≠ "TRUE" →
      ¬(cenv.background = "TRUE" ∧ cenv.monitor = "TRUE")) := by
  by_cases hb : env.background = "TRUE"
  · refine ⟨by simp [backgroundEnvStep_eq, hb], ?_, ?_⟩ <;>
      · intro cenv mon heq
        simp [backgroundEnvStep_eq, hb] at heq
  · refine ⟨?_, ?_, ?_⟩
    · rw [backgroundEnvStep_eq, if_neg hb]
      split <;> simp [hb]
    · intro cenv mon heq
      rw [backgroundEnvStep_eq, if_neg hb] at heq
      split at heq <;>
        · simp only [Option.some.injEq, Prod.mk.injEq] at heq
          obtain ⟨hc, _⟩ := heq
          subst hc
          first
          | exact Or.inl ⟨rfl, rfl⟩
          | exact Or.inr ⟨rfl, rfl⟩
    · intro cenv mon heq hbn hmn
      rw [backgroundEnvStep_eq, if_neg hb] at heq
      split at heq <;>
        · simp only [Option.some.injEq, Prod.mk.injEq] at heq
          obtain ⟨hc, _⟩ := heq
          subst hc
          rintro ⟨hx, hy⟩
          first
          | exact hbn hx
          | exact hmn hy

/-- C9 witness: the amended marker theorem at the concrete chain links. -/
theorem background_markers_witness :
    ¬((BgEnv.mk "" "TRUE").background = "TRUE" ∧ (BgEnv.mk "" "TRUE").monitor = "TRUE") ∧
    (backgroundEnvStep true ⟨"", ""⟩ = none ↔ (BgEnv.mk "" "").background = "TRUE") :=
  ⟨(background_markers true ⟨"", ""⟩).2.2 ⟨"", "TRUE"⟩ false rfl (by decide) (by decide),
   (background_markers true ⟨"", ""⟩).1⟩

/-- C1 counterexample: with no explicit tty flags and the configuration
value `RequestTTY=Force` — a value outside the five recognized literals —
`parseCmdAndTTY` succeeds with tty `true` instead of erroring, because
the source lowercases the value before the comparison. -/
theorem parseCmdAndTTY_cex :
    parseCmdAndTTY ⟨fun _ k => if k = "RequestTTY" then "Force" else "", false⟩
      ⟨"host", "", [], false, false, false, false, ⟨[]⟩⟩ = .ok ("", true) ∧
    ("Force" : String) ∉ (["", "auto", "no", "force", "yes"] : List String) :=
  ⟨rfl, by decide⟩

/-- C1 (amended): given a successfully resolved command, `parseCmdAndTTY`
resolves the pty request exactly as: both explicit flags together is an
error; an explicit disable or force flag wins regardless of any
configuration value; otherwise the `RequestTTY` configuration value is
compared case-insensitively, its lowercase form `""` or `"auto"`
yielding (interactive and command empty), `"no"` yielding false,
`"force"` yielding true, `"yes"` yielding interactive, and a value whose
lowercase form is none of these yielding an error naming the
unrecognized value. -/
theorem parseCmdAndTTY_tty_resolution (ctx : TsshEnv) (args : SshArgs) (cmd : String)
    (h : parseRemoteCommand ctx args = .ok cmd) :
    (args.DisableTTY = true → args.ForceTTY = true →
      parseCmdAndTTY ctx args = .error "cannot specify -t with -T") ∧
    (args.DisableTTY = true → args.ForceTTY = false →
      parseCmdAndTTY ctx args = .ok (cmd, false)) ∧
    (args.DisableTTY = false → args.ForceTTY = true →
      parseCmdAndTTY ctx args = .ok (cmd, true)) ∧
    (args.DisableTTY = false → args.ForceTTY = false →
      ((strToLower (ctx.getConfig args.Destination "RequestTTY") = "" ∨
          strToLower (ctx.getConfig args.Destination "RequestTTY") = "auto") →
        parseCmdAndTTY ctx args = .ok (cmd, ctx.isTerminal && (cmd == ""))) ∧
      (strToLower (ctx.getConfig args.Destination "RequestTTY") = "no" →
        parseCmdAndTTY ctx args = .ok (cmd, false)) ∧
      (strToLower (ctx.getConfig args.Destination "RequestTTY") = "force" →
        parseCmdAndTTY ctx args = .ok (cmd, true)) ∧
      (strToLower (ctx.getConfig args.Destination "RequestTTY") = "yes" →
        parseCmdAndTTY ctx args = .ok (cmd, ctx.isTerminal)) ∧
      (strToLower (ctx.getConfig args.Destination "RequestTTY") ∉
          (["", "auto", "no", "force", "yes"] : List String) →
        parseCmdAndTTY ctx args = .error
          ("unknown RequestTTY option: " ++ ctx.getConfig args.Destination "RequestTTY"))) := by
  refine ⟨?_, ?_, ?_, ?_⟩
  · intro hd hf
    unfold parseCmdAndTTY
    rw [h]
    simp [hd, hf]
  · intro hd hf
    unfold parseCmdAndTTY
    rw [h]
    simp [hd, hf]
  · intro hd hf
    unfold parseCmdAndTTY
    rw [h]
    simp [hd, hf]
  · intro hd hf
    have hstep : parseCmdAndTTY ctx args =
        (match strToLower (ctx.getConfig args.Destination "RequestTTY") with
          | "" | "auto" => .ok (cmd, ctx.isTerminal && (cmd == ""))
          | "no" => .ok (cmd, false)
          | "force" => .ok (cmd, true)
          | "yes" => .ok (cmd, ctx.isTerminal)
          | _ => .error
              ("unknown RequestTTY option: " ++ ctx.getConfig args.Destination "RequestTTY")) := by
      unfold parseCmdAndTTY
      rw [h]
      simp [hd, hf]
    refine ⟨?_, ?_, ?_, ?_, ?_⟩ <;> intro hr
    · rcases hr with hr | hr <;> rw [hstep, hr] <;> rfl
    · rw [hstep, hr]; rfl
    · rw [hstep, hr]; rfl
    · rw [hstep, hr]; rfl
    · simp only [List.mem_cons, List.not_mem_nil, or_false, not_or] at hr
      rw [hstep]
      split <;> first
        | rfl
        | (exfalso; simp_all)

/-- C1 witness: the amended tty-resolution theorem at a concrete
argument set with `RequestTTY=yes` and an interactive terminal. -/
theorem parseCmdAndTTY_tty_resolution_witness :
    parseCmdAndTTY ⟨fun _ k => if k = "RequestTTY" then "yes" else "", true⟩
      ⟨"host", "", [], false, false, false, false, ⟨[]⟩⟩ = .ok ("", true) :=
  ((parseCmdAndTTY_tty_resolution ⟨fun _ k => if k = "RequestTTY" then "yes" else "", true⟩
      ⟨"host", "", [], false, false, false, false, ⟨[]⟩⟩ "" rfl).2.2.2 rfl rfl).2.2.2.1 rfl

/-- C7 witness: the Ctrl-Z theorem at a concrete chunk and schedule. -/
theorem forwardStep_eof_ctrlZ_witness :
    forwardStep true true true [104] ReadErr.eof = ([104, 26], true) ∧
    (forwardStdio true true true [([104], ReadErr.ok), ([], ReadErr.eof)]).2 = false :=
  ⟨forwardStep_eof_ctrlZ.1 [104],
   forwardStep_eof_ctrlZ.2 [([104], ReadErr.ok), ([], ReadErr.eof)] (by decide)⟩
